import Mathlib

/-!
Shallow embedding of autotiling-rs (src/main.rs), an autotiling policy agent
for the sway compositor.  The swayipc tree type is embedded as a nested
inductive; floating point values (f32 ratio, f64 percent) are modelled by
rationals; machine integers by Int.  Rust panics (the two .unwrap() calls and
the unreachable! arm of the event loop) are modelled by explicit result
constructors, and the upward while loop of switch_splitting by a fuel bounded
recursion with fuel equal to the number of nodes of the snapshot.
-/

/-- Subset of swayipc NodeType used by the program. -/
inductive NodeType where
  | root
  | output
  | workspace
  | con
  | floatingCon
  | dockarea
deriving DecidableEq

/-- Subset of swayipc NodeLayout; noneL stands for NodeLayout::None. -/
inductive NodeLayout where
  | splitH
  | splitV
  | stacked
  | tabbed
  | outputL
  | noneL
deriving DecidableEq

/-- Screen rectangle of a node (swayipc Rect, the fields the program reads). -/
structure Rect where
  x : Int
  y : Int
  width : Int
  height : Int
deriving DecidableEq

/-- The swayipc Node tree, restricted to the fields the program reads. -/
inductive Node where
  | mk (id : Int) (node_type : NodeType) (layout : NodeLayout)
       (rect : Rect) (percent : Option Rat) (focused : Bool)
       (focus : List Int) (nodes : List Node) (floating_nodes : List Node)

def Node.id : Node → Int
  | .mk i _ _ _ _ _ _ _ _ => i

def Node.node_type : Node → NodeType
  | .mk _ t _ _ _ _ _ _ _ => t

def Node.layout : Node → NodeLayout
  | .mk _ _ l _ _ _ _ _ _ => l

def Node.rect : Node → Rect
  | .mk _ _ _ r _ _ _ _ _ => r

def Node.percent : Node → Option Rat
  | .mk _ _ _ _ p _ _ _ _ => p

def Node.focused : Node → Bool
  | .mk _ _ _ _ _ b _ _ _ => b

def Node.focus : Node → List Int
  | .mk _ _ _ _ _ _ f _ _ => f

def Node.nodes : Node → List Node
  | .mk _ _ _ _ _ _ _ ns _ => ns

def Node.floating_nodes : Node → List Node
  | .mk _ _ _ _ _ _ _ _ fs => fs

mutual

/-- Embedding of node_find_focused_as_ref (main.rs lines 43-65): test the
predicate on the current node, stop on an empty focus list, otherwise descend
into the child (tiling children first, then floating children) whose id equals
the first entry of focus. -/
def node_find_focused_as_ref (pred : Node → Bool) : Node → Option Node
  | slf@(.mk _ _ _ _ _ _ focus ns fs) =>
    if pred slf then some slf
    else if focus.isEmpty then none
    else
      let first := focus.headD 0
      match findFirstById pred first ns with
      | some r => r
      | none =>
        match findFirstById pred first fs with
        | some r => r
        | none => none

/-- Embedding of the two for loops of node_find_focused_as_ref: scan the list
for the first node whose id matches; on a match return (as some) the result of
the recursive call, otherwise keep scanning. -/
def findFirstById (pred : Node → Bool) (first : Int) : List Node → Option (Option Node)
  | [] => none
  | n :: rest =>
    if n.id = first then some (node_find_focused_as_ref pred n)
    else findFirstById pred first rest

end

/-- Embedding of get_parent (main.rs lines 67-69). -/
def get_parent (tree : Node) (current : Node) : Option Node :=
  node_find_focused_as_ref (fun n => n.nodes.any (fun nn => nn.id == current.id)) tree

/-- Embedding of should_we_ignore_this_window (main.rs lines 74-82).
unwrap_or(1.0) on percent becomes Option.getD 1. -/
def should_we_ignore_this_window (focused_node : Node) : Bool :=
  let is_stacked := focused_node.layout == NodeLayout.stacked
  let is_tabbed := focused_node.layout == NodeLayout.tabbed
  let is_floating := focused_node.node_type == NodeType.floatingCon
  let is_full_screen := decide (focused_node.percent.getD 1 > 1)
  is_floating || is_full_screen || is_stacked || is_tabbed

/-- Command text chosen by configure_layout for a layout. -/
def layoutCmd : NodeLayout → String
  | .splitV => "splitv"
  | .splitH => "splith"
  | _ => "nop"

/-- Embedding of configure_layout (main.rs lines 87-99).  The Bool argument is
the transport outcome of conn.run_command: the source unwraps that Result, so a
transport failure is a panic, modelled as the none result.  some cmds is the
list of dispatched commands (empty when the parent layout already matches).
The per command results inside the reply are discarded by the source. -/
def configure_layout (new_layout : NodeLayout) (parent : Node) (cmdOk : Bool) :
    Option (List String) :=
  if new_layout = parent.layout then some []
  else if cmdOk then some [layoutCmd new_layout] else none

mutual

/-- Number of nodes of a snapshot, used as fuel for the upward walk. -/
def Node.count : Node → Nat
  | .mk _ _ _ _ _ _ _ ns fs => 1 + countList ns + countList fs

def countList : List Node → Nat
  | [] => 0
  | n :: rest => Node.count n + countList rest

end

/-- Outcome of the single child upward walk of switch_splitting. -/
inductive WalkResult where
  | reachedWorkspace
  | exited
  | panicked
  | fuelOut
deriving DecidableEq

/-- Embedding of the while loop of switch_splitting (main.rs lines 20-28):
while the current node has exactly one tiling child, stop at a workspace,
otherwise step to the parent; a missing parent is unwrapped, hence panicked.
fuelOut models an infinite loop, possible only when node ids repeat. -/
def singleChildWalk (tree : Node) : Nat → Node → WalkResult
  | 0, _ => .fuelOut
  | fuel + 1, current =>
    if current.nodes.length = 1 then
      if current.node_type = NodeType.workspace then .reachedWorkspace
      else
        match get_parent tree current with
        | some p => singleChildWalk tree fuel p
        | none => .panicked
    else .exited

/-- Geometry based orientation choice of switch_splitting (main.rs lines
30-35), factored out: real_ratio is height over width as rationals. -/
def split_decision (focused_node : Node) (ratio : Rat) : NodeLayout :=
  let real_ratio := (focused_node.rect.height : Rat) / (focused_node.rect.width : Rat)
  if real_ratio > ratio then NodeLayout.splitV else NodeLayout.splitH

/-- Result of one decision cycle: ok and error mirror the Result of
switch_splitting, panicked models a Rust panic, diverged models a
non-terminating upward walk (fuel exhaustion). -/
inductive CycleResult where
  | ok
  | error (msg : String)
  | panicked
  | diverged
deriving DecidableEq

/-- State of the sway connection for one decision cycle: the snapshot returned
by get_tree (none when get_tree fails) and the transport outcome of
run_command. -/
structure Conn where
  treeResult : Option Node
  cmdOk : Bool

/-- Lifts a configure_layout outcome into a cycle result of switch_splitting. -/
def dispatchResult : Option (List String) → CycleResult × List String
  | some cmds => (.ok, cmds)
  | none => (.panicked, [])

/-- Embedding of switch_splitting (main.rs lines 6-38): fetch the tree, find
the focused node and its parent, apply the ignore policy, run the single child
upward walk, then the geometry decision; the second component collects the
dispatched commands. -/
def switch_splitting (conn : Conn) (ratio : Rat) : CycleResult × List String :=
  match conn.treeResult with
  | none => (.error "get_tree() failed", [])
  | some tree =>
    match node_find_focused_as_ref (fun n => n.focused) tree with
    | none => (.error "Could not find the focused node", [])
    | some focused_node =>
      match get_parent tree focused_node with
      | none => (.error "No parent", [])
      | some parent =>
        if should_we_ignore_this_window focused_node then (.ok, [])
        else
          match singleChildWalk tree tree.count parent with
          | .reachedWorkspace => dispatchResult (configure_layout NodeLayout.splitH parent conn.cmdOk)
          | .exited => dispatchResult (configure_layout (split_decision focused_node ratio) parent conn.cmdOk)
          | .panicked => (.panicked, [])
          | .fuelOut => (.diverged, [])

/-- Subset of swayipc WindowChange. -/
inductive WindowChange where
  | newW
  | close
  | focus
  | title
  | fullscreenMode
  | moveW
  | floating
  | urgent
  | mark
deriving DecidableEq

/-- Tagged event variants of swayipc Event; the program subscribes to the
Window category only. -/
inductive Event where
  | window (change : WindowChange)
  | workspaceEv
  | modeEv
  | shutdownEv
  | tickEv
deriving DecidableEq

/-- Outcome of one iteration of the main event loop: next carries the message
printed to stderr (if any) and the dispatched commands; panicked models a
process aborting panic; diverged a non-terminating cycle. -/
inductive LoopStep where
  | next (printed : Option String) (cmds : List String)
  | panicked
  | diverged
deriving DecidableEq

/-- Embedding of one iteration of the main loop (main.rs lines 112-136).  The
iterator item is an Option Event: none models an Err item, unwrapped by the
source, hence a panic.  A window event with change Focus runs switch_splitting
and prints a recoverable error to stderr; other window changes do nothing; any
non window variant hits the unreachable! arm, hence a panic. -/
def processEvent (conn : Conn) (ratio : Rat) : Option Event → LoopStep
  | none => .panicked
  | some (.window c) =>
    if c = WindowChange.focus then
      match switch_splitting conn ratio with
      | (.ok, cmds) => .next none cmds
      | (.error m, cmds) => .next (some ("err: " ++ m)) cmds
      | (.panicked, _) => .panicked
      | (.diverged, _) => .diverged
    else .next none []
  | some _ => .panicked

mutual

/-- List of all nodes of a snapshot (the node itself first, then the subtrees
of the tiling children, then of the floating children). -/
def Node.allNodes : Node → List Node
  | n@(.mk _ _ _ _ _ _ _ ns fs) => n :: (allNodesList ns ++ allNodesList fs)

def allNodesList : List Node → List Node
  | [] => []
  | n :: rest => n.allNodes ++ allNodesList rest

end

/-- List of all node ids of a snapshot (with multiplicity). -/
def Node.ids (t : Node) : List Int := t.allNodes.map Node.id

/-- Multiplicity of the id i among the nodes of t. -/
def cnt (i : Int) (t : Node) : Nat := t.ids.count i

/-- Multiplicity of the id i summed over a list of subtrees. -/
def cntL (i : Int) (l : List Node) : Nat := ((allNodesList l).map Node.id).count i

/-- Focus path invariant of the spec data model: FocusChain n l t states that the
list l descends from n to t, each step moving to the child (tiling or
floating) designated by the first entry of the focus list of the current
node. -/
def FocusChain : Node → List Node → Node → Prop
  | n, [], t => n = t
  | n, c :: rest, t =>
    n.focus.head? = some c.id ∧ (c ∈ n.nodes ∨ c ∈ n.floating_nodes) ∧ FocusChain c rest t

/-- Safety precondition of the upward walk of switch_splitting, with an
explicit step bound: starting at c, either the loop condition fails at once,
or a workspace is reached, or the parent lookup succeeds and the rest of the
chain is safe.  This renders the claim precondition that every single child
chain meets a Workspace before the parent lookup can fail. -/
inductive SafeChain (tree : Node) : Node → Nat → Prop where
  | exit : ∀ (c : Node) (k : Nat), c.nodes.length ≠ 1 → SafeChain tree c k
  | ws : ∀ (c : Node) (k : Nat), c.nodes.length = 1 →
      c.node_type = NodeType.workspace → SafeChain tree c k
  | up : ∀ (c p : Node) (k : Nat), c.nodes.length = 1 →
      c.node_type ≠ NodeType.workspace → get_parent tree c = some p →
      SafeChain tree p k → SafeChain tree c (k + 1)

/-! Concrete snapshots used by witnesses and counterexamples. -/

/-- Focused floating window (C1): lives in the floating list of the root. -/
def wC1 : Node := .mk 2 .floatingCon .noneL ⟨0, 0, 200, 100⟩ (some (1/2)) true [] [] []

/-- Root of the C1 counterexample snapshot. -/
def tC1 : Node := .mk 1 .root .noneL ⟨0, 0, 1000, 1000⟩ none false [2] [] [wC1]

/-- Focused node of the C1 witness snapshot: a floating window stored as a
tiling child, so that the parent lookup succeeds. -/
def wC1w : Node := .mk 12 .floatingCon .noneL ⟨0, 0, 200, 100⟩ (some (1/2)) true [] [] []

/-- Root of the C1 witness snapshot. -/
def tC1w : Node := .mk 11 .root .noneL ⟨0, 0, 1000, 1000⟩ none false [12] [wC1w] []

/-- Focused window of the C2 counterexample snapshot (tall: 50 over 100). -/
def w1C2 : Node := .mk 23 .con .noneL ⟨0, 0, 100, 50⟩ (some (1/2)) true [] [] []

/-- Second window of the C2 counterexample workspace. -/
def w2C2 : Node := .mk 24 .con .noneL ⟨0, 0, 100, 50⟩ (some (1/2)) false [] [] []

/-- Workspace of the C2 counterexample snapshot, layout splith. -/
def wsC2 : Node := .mk 22 .workspace .splitH ⟨0, 0, 1000, 1000⟩ none false [23] [w1C2, w2C2] []

/-- Root of the C2 counterexample snapshot. -/
def tC2 : Node := .mk 21 .root .noneL ⟨0, 0, 1000, 1000⟩ none false [22] [wsC2] []

/-- Focused node of the C3 counterexample: square window, deep in a single
child chain. -/
def fC3 : Node := .mk 34 .con .noneL ⟨0, 0, 100, 100⟩ (some 1) true [] [] []

/-- Structural parent of the C3 counterexample focus: a container (not a
workspace) with exactly one tiling child, layout splitv. -/
def cC3 : Node := .mk 33 .con .splitV ⟨0, 0, 100, 100⟩ (some 1) false [34] [fC3] []

/-- Workspace of the C3 counterexample, holding one single child container. -/
def wsC3 : Node := .mk 32 .workspace .splitH ⟨0, 0, 1000, 1000⟩ none false [33] [cC3] []

/-- Root of the C3 counterexample snapshot. -/
def tC3 : Node := .mk 31 .root .noneL ⟨0, 0, 1000, 1000⟩ none false [32] [wsC3] []

/-- Focused node of the C3 witness snapshot: the single window of the
workspace. -/
def fC3w : Node := .mk 37 .con .noneL ⟨0, 0, 100, 100⟩ (some 1) true [] [] []

/-- Workspace of the C3 witness snapshot: exactly one tiling child, layout
splitv so that the forced splith command is visible. -/
def wsC3w : Node := .mk 36 .workspace .splitV ⟨0, 0, 1000, 1000⟩ none false [37] [fC3w] []

/-- Root of the C3 witness snapshot. -/
def tC3w : Node := .mk 35 .root .noneL ⟨0, 0, 1000, 1000⟩ none false [36] [wsC3w] []

/-- Focused node of the C5 witness snapshot. -/
def wC5w : Node := .mk 52 .con .noneL ⟨0, 0, 100, 50⟩ (some 1) true [] [] []

/-- Root of the C5 witness snapshot; its focus list points at its only tiling
child. -/
def tC5w : Node := .mk 51 .root .noneL ⟨0, 0, 1000, 1000⟩ none false [52] [wC5w] []

/-- Focused node of the C5 counterexample snapshot: a floating child. -/
def wC5 : Node := .mk 54 .floatingCon .noneL ⟨0, 0, 200, 100⟩ (some (1/2)) true [] [] []

/-- Root of the C5 counterexample snapshot: the focused node is its floating
child, so the snapshot has exactly one focused node and a structural parent
exists, yet the parent predicate never matches. -/
def tC5 : Node := .mk 53 .root .noneL ⟨0, 0, 1000, 1000⟩ none false [54] [] [wC5]

/-- Focused window of the C7 counterexample snapshot (tall: 50 over 100). -/
def w1C7 : Node := .mk 73 .con .noneL ⟨0, 0, 100, 50⟩ (some (1/2)) true [] [] []

/-- Second window of the C7 counterexample workspace. -/
def w2C7 : Node := .mk 74 .con .noneL ⟨0, 0, 100, 50⟩ (some (1/2)) false [] [] []

/-- Workspace of the C7 counterexample snapshot, layout splith while the
geometry decision gives splitv. -/
def wsC7 : Node := .mk 72 .workspace .splitH ⟨0, 0, 1000, 1000⟩ none false [73] [w1C7, w2C7] []

/-- Root of the C7 counterexample snapshot. -/
def tC7 : Node := .mk 71 .root .noneL ⟨0, 0, 1000, 1000⟩ none false [72] [wsC7] []

/-- Node with threshold fraction present and above one (C8 witness). -/
def nC8 : Node := .mk 81 .con .noneL ⟨0, 0, 100, 100⟩ (some 2) true [] [] []

/-- Node of aspect ratio 41 over 100 (C9). -/
def n41C9 : Node := .mk 91 .con .noneL ⟨0, 0, 100, 41⟩ (some 1) true [] [] []

/-- Node of aspect ratio 39 over 100 (C9). -/
def n39C9 : Node := .mk 92 .con .noneL ⟨0, 0, 100, 39⟩ (some 1) true [] [] []

/-- Node of aspect ratio exactly 40 over 100 (C9). -/
def n40C9 : Node := .mk 93 .con .noneL ⟨0, 0, 100, 40⟩ (some 1) true [] [] []

/-- Focused node of the C10 counterexample snapshot. -/
def fC10 : Node := .mk 103 .con .noneL ⟨0, 0, 100, 100⟩ (some 1) true [] [] []

/-- Single child container above the C10 focus; no workspace anywhere in the
upward chain. -/
def aC10 : Node := .mk 102 .con .splitH ⟨0, 0, 100, 100⟩ (some 1) false [103] [fC10] []

/-- Root of the C10 counterexample snapshot: the single child chain reaches
the root without meeting a workspace, so the parent lookup of the root fails
and the unwrap panics. -/
def tC10 : Node := .mk 101 .root .noneL ⟨0, 0, 1000, 1000⟩ none false [102] [aC10] []

/-- Two window workspace used by the C10 witness (the walk exits at once). -/
def w1C10w : Node := .mk 113 .con .noneL ⟨0, 0, 100, 50⟩ (some (1/2)) true [] [] []

/-- Second window of the C10 witness workspace. -/
def w2C10w : Node := .mk 114 .con .noneL ⟨0, 0, 100, 50⟩ (some (1/2)) false [] [] []

/-- Workspace of the C10 witness snapshot. -/
def wsC10w : Node := .mk 112 .workspace .splitH ⟨0, 0, 1000, 1000⟩ none false [113] [w1C10w, w2C10w] []

/-- Root of the C10 witness snapshot. -/
def tC10w : Node := .mk 111 .root .noneL ⟨0, 0, 1000, 1000⟩ none false [112] [wsC10w] []

/-! Helper lemmas. -/

@[simp] theorem Node.id_mk (i t l r p b fo ns fs) : (Node.mk i t l r p b fo ns fs).id = i := rfl

@[simp] theorem Node.node_type_mk (i t l r p b fo ns fs) :
    (Node.mk i t l r p b fo ns fs).node_type = t := rfl

@[simp] theorem Node.layout_mk (i t l r p b fo ns fs) : (Node.mk i t l r p b fo ns fs).layout = l := rfl

@[simp] theorem Node.rect_mk (i t l r p b fo ns fs) : (Node.mk i t l r p b fo ns fs).rect = r := rfl

@[simp] theorem Node.percent_mk (i t l r p b fo ns fs) :
    (Node.mk i t l r p b fo ns fs).percent = p := rfl

@[simp] theorem Node.focused_mk (i t l r p b fo ns fs) :
    (Node.mk i t l r p b fo ns fs).focused = b := rfl

@[simp] theorem Node.focus_mk (i t l r p b fo ns fs) : (Node.mk i t l r p b fo ns fs).focus = fo := rfl

@[simp] theorem Node.nodes_mk (i t l r p b fo ns fs) : (Node.mk i t l r p b fo ns fs).nodes = ns := rfl

@[simp] theorem Node.floating_nodes_mk (i t l r p b fo ns fs) :
    (Node.mk i t l r p b fo ns fs).floating_nodes = fs := rfl

theorem node_find_unfold (pred : Node → Bool) (slf : Node) :
    node_find_focused_as_ref pred slf =
      if pred slf then some slf
      else if slf.focus.isEmpty then none
      else
        match findFirstById pred (slf.focus.headD 0) slf.nodes with
        | some r => r
        | none =>
          match findFirstById pred (slf.focus.headD 0) slf.floating_nodes with
          | some r => r
          | none => none := by
  cases slf
  rfl

theorem findFirstById_eq (pred : Node → Bool) (i : Int) (l : List Node) :
    findFirstById pred i l = (l.find? (fun e => e.id == i)).map (node_find_focused_as_ref pred) := by
  induction l with
  | nil => rfl
  | cons n rest ih =>
    by_cases h : n.id = i
    · rw [List.find?_cons_of_pos _ (by simpa using h)]
      simp [findFirstById, h]
    · rw [List.find?_cons_of_neg _ (by simpa using h)]
      simp [findFirstById, h, ih]

theorem node_find_char (pred : Node → Bool) (slf : Node) :
    node_find_focused_as_ref pred slf =
      if pred slf then some slf
      else
        match slf.focus.head? with
        | none => none
        | some first =>
          match slf.nodes.find? (fun c => c.id == first) with
          | some c => node_find_focused_as_ref pred c
          | none =>
            match slf.floating_nodes.find? (fun c => c.id == first) with
            | some c => node_find_focused_as_ref pred c
            | none => none := by
  rw [node_find_unfold]
  by_cases hp : pred slf
  · simp [hp]
  · simp only [hp, if_false, Bool.false_eq_true]
    cases hf : slf.focus with
    | nil => simp
    | cons a as =>
      simp only [List.isEmpty_cons, List.headD_cons, List.head?_cons]
      rw [findFirstById_eq, findFirstById_eq]
      cases slf.nodes.find? (fun c => c.id == a) with
      | none =>
        simp only [Option.map_none]
        cases slf.floating_nodes.find? (fun c => c.id == a) <;> simp
      | some c => simp

theorem dispatch_len (l : NodeLayout) (p : Node) (ok : Bool) :
    (dispatchResult (configure_layout l p ok)).2.length ≤ 1 := by
  unfold configure_layout dispatchResult
  by_cases h : l = p.layout
  · simp [h]
  · cases ok <;> simp [h]

/-! Claim theorems. -/

/-- Claim C1, counterexample: a snapshot whose focused node has type
FloatingWindow and sits in the floating list of its parent.  The parent
predicate of get_parent only inspects tiling children, so resolution fails and
switch_splitting returns the No parent error instead of success, refuting the
clause regardless of the state of parent resolution. -/
theorem C1_cex :
    node_find_focused_as_ref (fun n => n.focused) tC1 = some wC1 ∧
    wC1.node_type = NodeType.floatingCon ∧
    switch_splitting ⟨some tC1, true⟩ (2/5) = (.error "No parent", []) :=
  ⟨rfl, rfl, rfl⟩

/-- Claim C1, amended: whenever resolution of the focused node and of its
parent succeeds and the focused node has type FloatingWindow, switch_splitting
returns success and dispatches no command. -/
theorem C1_floating_focus_skipped (conn : Conn) (ratio : Rat) (tree f p : Node)
    (htree : conn.treeResult = some tree)
    (hfind : node_find_focused_as_ref (fun n => n.focused) tree = some f)
    (hpar : get_parent tree f = some p)
    (hfl : f.node_type = NodeType.floatingCon) :
    switch_splitting conn ratio = (.ok, []) := by
  have hig : should_we_ignore_this_window f = true := by
    simp [should_we_ignore_this_window, hfl]
  simp [switch_splitting, htree, hfind, hpar, hig]

/-- Claim C1, witness: the amended theorem applied to a snapshot where the
floating window is resolvable (stored as a tiling child). -/
theorem C1_witness : switch_splitting ⟨some tC1w, true⟩ (2/5) = (.ok, []) :=
  C1_floating_focus_skipped ⟨some tC1w, true⟩ (2/5) tC1w wC1w tC1w rfl rfl rfl rfl

/-- Claim C2, counterexample: on a snapshot that requires one command, a
transport failure of run_command makes the cycle (and the loop iteration)
panic, terminating the process, instead of printing a per event error and
continuing. -/
theorem C2_cex :
    switch_splitting ⟨some tC2, true⟩ (2/5) = (.ok, ["splitv"]) ∧
    switch_splitting ⟨some tC2, false⟩ (2/5) = (.panicked, []) ∧
    processEvent ⟨some tC2, false⟩ (2/5) (some (.window .focus)) = .panicked := by
  have h2 : switch_splitting ⟨some tC2, false⟩ (2/5) = (.panicked, []) := by
    norm_num [switch_splitting, node_find_focused_as_ref, findFirstById, get_parent,
      should_we_ignore_this_window, singleChildWalk, split_decision, configure_layout,
      dispatchResult, layoutCmd, Node.count, countList, tC2, wsC2, w1C2, w2C2]
    decide
  refine ⟨?_, h2, ?_⟩
  · norm_num [switch_splitting, node_find_focused_as_ref, findFirstById, get_parent,
      should_we_ignore_this_window, singleChildWalk, split_decision, configure_layout,
      dispatchResult, layoutCmd, Node.count, countList, tC2, wsC2, w1C2, w2C2]
    decide
  · simp [processEvent, h2]

/-- Claim C2, amended: tree fetch and resolution failures are recoverable per
event errors: when switch_splitting returns an error, the loop iteration
prints it to stderr and continues with no panic. -/
theorem C2_recoverable_error_logged (conn : Conn) (ratio : Rat) (m : String) (cmds : List String)
    (h : switch_splitting conn ratio = (.error m, cmds)) :
    processEvent conn ratio (some (.window .focus)) = .next (some ("err: " ++ m)) cmds := by
  simp [processEvent, h]

/-- Claim C2, witness: a failing get_tree is printed and the loop continues. -/
theorem C2_witness :
    processEvent ⟨none, true⟩ (2/5) (some (.window .focus)) =
      .next (some ("err: " ++ "get_tree() failed")) [] :=
  C2_recoverable_error_logged ⟨none, true⟩ (2/5) "get_tree() failed" [] rfl

/-- Claim C4: any window event whose change reason is not Focus leads to no
decision, no command and no crash; the subscribed sequence only yields window
events, and only the Focus variant triggers a decision cycle. -/
theorem C4_non_focus_ignored (conn : Conn) (ratio : Rat) (c : WindowChange)
    (h : c ≠ WindowChange.focus) :
    processEvent conn ratio (some (.window c)) = .next none [] := by
  simp [processEvent, h]

/-- Claim C4, witness: a window title event is ignored. -/
theorem C4_witness : processEvent ⟨none, true⟩ (2/5) (some (.window .title)) = .next none [] :=
  C4_non_focus_ignored ⟨none, true⟩ (2/5) .title (by decide)

/-- Claim C6: the focus path descent tests the predicate on the current node
and returns it on a match; otherwise it returns none when the focus sequence
is empty; otherwise it takes the first id of focus, searches tiling children
first and then floating children for the child with that id, recurses into it
when found, and returns none when no child matches. -/
theorem C6_descent_characterization (pred : Node → Bool) (slf : Node) :
    node_find_focused_as_ref pred slf =
      if pred slf then some slf
      else
        match slf.focus.head? with
        | none => none
        | some first =>
          match slf.nodes.find? (fun c => c.id == first) with
          | some c => node_find_focused_as_ref pred c
          | none =>
            match slf.floating_nodes.find? (fun c => c.id == first) with
            | some c => node_find_focused_as_ref pred c
            | none => none :=
  node_find_char pred slf

/-- Claim C7, counterexample: the decision is a pure function of the snapshot,
so a second invocation on an unchanged tree repeats the same single command
instead of issuing zero commands. -/
theorem C7_cex :
    (switch_splitting ⟨some tC7, true⟩ (2/5)).2 = ["splitv"] ∧
    ¬ (switch_splitting ⟨some tC7, true⟩ (2/5)).2 = [] := by
  have h : switch_splitting ⟨some tC7, true⟩ (2/5) = (.ok, ["splitv"]) := by
    norm_num [switch_splitting, node_find_focused_as_ref, findFirstById, get_parent,
      should_we_ignore_this_window, singleChildWalk, split_decision, configure_layout,
      dispatchResult, layoutCmd, Node.count, countList, tC7, wsC7, w1C7, w2C7]
    decide
  rw [h]
  exact ⟨rfl, by decide⟩

/-- Claim C7, amended: if the chosen orientation already equals the parent
layout then configure_layout dispatches nothing, and every decision cycle
dispatches at most one command; a second invocation on an unchanged tree
repeats the commands of the first (purity), so it is idle exactly when the
first was. -/
theorem C7_noop_and_single_command :
    (∀ (parent : Node) (ok : Bool), configure_layout parent.layout parent ok = some []) ∧
    (∀ (conn : Conn) (ratio : Rat), (switch_splitting conn ratio).2.length ≤ 1) := by
  constructor
  · intro parent ok
    simp [configure_layout]
  · intro conn r
    unfold switch_splitting
    cases htr : conn.treeResult with
    | none => simp
    | some tree =>
      cases hfind : node_find_focused_as_ref (fun n => n.focused) tree with
      | none => simp [hfind]
      | some f =>
        cases hpar : get_parent tree f with
        | none => simp [hfind, hpar]
        | some p =>
          by_cases hig : should_we_ignore_this_window f = true
          · simp [hfind, hpar, hig]
          · cases hw : singleChildWalk tree tree.count p <;>
              simp [hfind, hpar, hig, hw, dispatch_len]

/-- Claim C8: the full screen clause of the ignore policy holds exactly when
percent is present and strictly greater than one; an absent percent is not
treated as full screen. -/
theorem C8_fullscreen_iff (n : Node)
    (h1 : n.layout ≠ NodeLayout.stacked) (h2 : n.layout ≠ NodeLayout.tabbed)
    (h3 : n.node_type ≠ NodeType.floatingCon) :
    (should_we_ignore_this_window n = true ↔ ∃ p, n.percent = some p ∧ 1 < p) ∧
    (n.percent = none → should_we_ignore_this_window n = false) := by
  cases hp : n.percent with
  | none => simp [should_we_ignore_this_window, hp, h1, h2, h3]
  | some q => simp [should_we_ignore_this_window, hp, h1, h2, h3]

/-- Claim C8, witness: percent present and equal to two is treated as full
screen. -/
theorem C8_witness : should_we_ignore_this_window nC8 = true :=
  (C8_fullscreen_iff nC8 (by decide) (by decide) (by decide)).1.mpr ⟨2, rfl, by norm_num⟩

/-- Claim C9: the geometry decision chooses SplitVertical exactly when height
over width exceeds the threshold strictly, SplitHorizontal otherwise; with
threshold 0.4, ratio 0.41 gives SplitVertical while 0.39 and exactly 0.4 give
SplitHorizontal. -/
theorem C9_ratio_boundary :
    (∀ (f : Node) (r : Rat),
        (split_decision f r = NodeLayout.splitV ↔
          (f.rect.height : Rat) / (f.rect.width : Rat) > r) ∧
        (split_decision f r = NodeLayout.splitH ↔
          ¬ (f.rect.height : Rat) / (f.rect.width : Rat) > r)) ∧
    split_decision n41C9 (2/5) = NodeLayout.splitV ∧
    split_decision n39C9 (2/5) = NodeLayout.splitH ∧
    split_decision n40C9 (2/5) = NodeLayout.splitH := by
  refine ⟨fun f r => ?_, ?_, ?_, ?_⟩
  · unfold split_decision
    by_cases h : (f.rect.height : Rat) / (f.rect.width : Rat) > r <;> simp [h]
  · norm_num [split_decision, n41C9]
  · norm_num [split_decision, n39C9]
  · norm_num [split_decision, n40C9]

/-- Claim C3, counterexample: a workspace holding one single child container
which holds the focused square window.  The structural parent of the focus is
the container (type con, layout splitv), not the workspace, so the claim
requires the geometry step to run (which would choose splitv, already set,
hence zero commands); the code instead walks upward, meets the workspace and
forces one splith command targeting the parent. -/
theorem C3_cex :
    get_parent tC3 fC3 = some cC3 ∧
    cC3.node_type = NodeType.con ∧
    split_decision fC3 (2/5) = NodeLayout.splitV ∧
    cC3.layout = NodeLayout.splitV ∧
    switch_splitting ⟨some tC3, true⟩ (2/5) = (.ok, ["splith"]) := by
  refine ⟨rfl, rfl, ?_, rfl, rfl⟩
  norm_num [split_decision, fC3]

/-- Claim C3, amended: after resolution and a negative ignore check, the
decision forces SplitHorizontal on the structural parent exactly when the
single child upward walk starting at that parent reaches a Workspace node, and
proceeds to the geometry step exactly when the walk exits the loop. -/
theorem C3_walk_override (conn : Conn) (ratio : Rat) (tree f p : Node)
    (htree : conn.treeResult = some tree)
    (hfind : node_find_focused_as_ref (fun n => n.focused) tree = some f)
    (hpar : get_parent tree f = some p)
    (hig : should_we_ignore_this_window f = false) :
    (singleChildWalk tree tree.count p = WalkResult.reachedWorkspace →
       switch_splitting conn ratio =
         dispatchResult (configure_layout NodeLayout.splitH p conn.cmdOk)) ∧
    (singleChildWalk tree tree.count p = WalkResult.exited →
       switch_splitting conn ratio =
         dispatchResult (configure_layout (split_decision f ratio) p conn.cmdOk)) := by
  constructor <;> intro hw <;> simp [switch_splitting, htree, hfind, hpar, hig, hw]

/-- Claim C3, witness: on a workspace with exactly one window the walk reaches
the workspace at once and splith is forced on the parent. -/
theorem C3_witness :
    switch_splitting ⟨some tC3w, true⟩ (2/5) =
      dispatchResult (configure_layout NodeLayout.splitH wsC3w true) :=
  (C3_walk_override ⟨some tC3w, true⟩ (2/5) tC3w fC3w wsC3w rfl rfl rfl rfl).1 rfl

/-- Claim C10: whenever the single child chain from the walk start meets a
Workspace node (or exits the loop) before any parent lookup fails, the walk
neither panics nor diverges, so the unguarded unwrap inside the loop is
unreachable; and on a snapshot whose single child chain reaches the root with
no intervening workspace, switch_splitting panics instead of returning a
recoverable error. -/
theorem C10_walk_safety :
    (∀ (tree c : Node) (k : Nat), SafeChain tree c k →
        ∀ fuel, k < fuel →
          singleChildWalk tree fuel c ≠ WalkResult.panicked ∧
          singleChildWalk tree fuel c ≠ WalkResult.fuelOut) ∧
    switch_splitting ⟨some tC10, true⟩ (2/5) = (.panicked, []) := by
  constructor
  · intro tree c k h
    induction h with
    | exit c k hne =>
      intro fuel hf
      obtain ⟨m, rfl⟩ : ∃ m, fuel = m + 1 := ⟨fuel - 1, by omega⟩
      simp [singleChildWalk, hne]
    | ws c k h1 h2 =>
      intro fuel hf
      obtain ⟨m, rfl⟩ : ∃ m, fuel = m + 1 := ⟨fuel - 1, by omega⟩
      simp [singleChildWalk, h1, h2]
    | up c p k h1 h2 h3 hp ih =>
      intro fuel hf
      obtain ⟨m, rfl⟩ : ∃ m, fuel = m + 1 := ⟨fuel - 1, by omega⟩
      have hstep : singleChildWalk tree (m + 1) c = singleChildWalk tree m p := by
        simp [singleChildWalk, h1, h2, h3]
      rw [hstep]
      exact ih m (by omega)
  · rfl

/-- Claim C10, witness: a two child workspace satisfies the exit case of the
precondition and the walk terminates without panic. -/
theorem C10_witness :
    singleChildWalk tC10w 1 wsC10w ≠ WalkResult.panicked ∧
    singleChildWalk tC10w 1 wsC10w ≠ WalkResult.fuelOut :=
  C10_walk_safety.1 tC10w wsC10w 0 (SafeChain.exit wsC10w 0 (by decide)) 1 (by decide)

/-! Machinery for the resolver correctness claim: membership and id counting
over snapshots. -/

theorem allNodes_eq (t : Node) :
    t.allNodes = t :: (allNodesList t.nodes ++ allNodesList t.floating_nodes) := by
  cases t
  rfl

theorem allNodesList_nil : allNodesList [] = [] := rfl

theorem allNodesList_cons (n : Node) (rest : List Node) :
    allNodesList (n :: rest) = n.allNodes ++ allNodesList rest := rfl

theorem node_count_pos (t : Node) : 1 ≤ t.count := by
  cases t
  simp [Node.count]
  omega

theorem count_le_of_mem_list {c : Node} {l : List Node} (h : c ∈ l) : c.count ≤ countList l := by
  induction l with
  | nil => cases h
  | cons n rest ih =>
    rcases List.mem_cons.mp h with rfl | h2
    · simp [countList]
    · have := ih h2
      simp [countList]
      omega

theorem count_child_lt {c t : Node} (h : c ∈ t.nodes ∨ c ∈ t.floating_nodes) :
    c.count < t.count := by
  cases t with
  | mk i ty l r p b fo ns fs =>
    rcases h with h | h
    · have := count_le_of_mem_list (show c ∈ ns from h)
      simp [Node.count]
      omega
    · have := count_le_of_mem_list (show c ∈ fs from h)
      simp [Node.count]
      omega

theorem Node.inductionOn (motive : Node → Prop)
    (step : ∀ t : Node,
      (∀ c ∈ t.nodes, motive c) → (∀ c ∈ t.floating_nodes, motive c) → motive t) :
    ∀ t, motive t := by
  have key : ∀ (k : Nat) (t : Node), t.count ≤ k → motive t := by
    intro k
    induction k with
    | zero =>
      intro t ht
      have := node_count_pos t
      omega
    | succ k ih =>
      intro t ht
      refine step t (fun c hc => ih c ?_) (fun c hc => ih c ?_)
      · have := count_child_lt (Or.inl hc)
        omega
      · have := count_child_lt (Or.inr hc)
        omega
  exact fun t => key t.count t le_rfl

theorem self_mem_allNodes (t : Node) : t ∈ t.allNodes := by
  rw [allNodes_eq]
  exact List.mem_cons_self _ _

theorem mem_allNodesList_of_mem {c : Node} {l : List Node} (hc : c ∈ l) {x : Node}
    (hx : x ∈ c.allNodes) : x ∈ allNodesList l := by
  induction l with
  | nil => cases hc
  | cons h rest ih =>
    rw [allNodesList_cons, List.mem_append]
    rcases List.mem_cons.mp hc with rfl | hc2
    · exact Or.inl hx
    · exact Or.inr (ih hc2)

theorem exists_of_mem_allNodesList {x : Node} {l : List Node} (h : x ∈ allNodesList l) :
    ∃ c ∈ l, x ∈ c.allNodes := by
  induction l with
  | nil => cases h
  | cons n rest ih =>
    rw [allNodesList_cons, List.mem_append] at h
    rcases h with h | h
    · exact ⟨n, List.mem_cons_self _ _, h⟩
    · obtain ⟨c, hc, hx⟩ := ih h
      exact ⟨c, List.mem_cons_of_mem _ hc, hx⟩

theorem child_mem_allNodes {c n : Node} (h : c ∈ n.nodes ∨ c ∈ n.floating_nodes) :
    c ∈ n.allNodes := by
  rw [allNodes_eq]
  refine List.mem_cons_of_mem _ (List.mem_append.mpr ?_)
  rcases h with h | h
  · exact Or.inl (mem_allNodesList_of_mem h (self_mem_allNodes c))
  · exact Or.inr (mem_allNodesList_of_mem h (self_mem_allNodes c))

theorem mem_allNodes_trans (t : Node) :
    ∀ {m x : Node}, x ∈ m.allNodes → m ∈ t.allNodes → x ∈ t.allNodes := by
  induction t using Node.inductionOn with
  | step t ihN ihF =>
    intro m x hx hm
    rw [allNodes_eq] at hm
    rcases List.mem_cons.mp hm with rfl | hm2
    · exact hx
    · rw [allNodes_eq]
      refine List.mem_cons_of_mem _ (List.mem_append.mpr ?_)
      rcases List.mem_append.mp hm2 with hN | hF
      · obtain ⟨c, hcl, hmc⟩ := exists_of_mem_allNodesList hN
        exact Or.inl (mem_allNodesList_of_mem hcl (ihN c hcl hx hmc))
      · obtain ⟨c, hcl, hmc⟩ := exists_of_mem_allNodesList hF
        exact Or.inr (mem_allNodesList_of_mem hcl (ihF c hcl hx hmc))

theorem cnt_eq (i : Int) (t : Node) :
    cnt i t = (if t.id = i then 1 else 0) + cntL i t.nodes + cntL i t.floating_nodes := by
  unfold cnt cntL Node.ids
  rw [allNodes_eq]
  by_cases h : t.id = i
  all_goals simp [h, List.count_cons, List.count_append, List.map_append]
  all_goals omega

theorem cntL_cons (i : Int) (n : Node) (rest : List Node) :
    cntL i (n :: rest) = cnt i n + cntL i rest := by
  unfold cntL cnt Node.ids
  rw [allNodesList_cons]
  simp [List.map_append, List.count_append]

theorem cnt_parts_sum (i : Int) (t : Node) :
    cntL i t.nodes + cntL i t.floating_nodes ≤ cnt i t := by
  rw [cnt_eq]
  by_cases h : t.id = i <;> simp [h]

theorem cntL_nodes_le (i : Int) (t : Node) : cntL i t.nodes ≤ cnt i t := by
  have := cnt_parts_sum i t
  omega

theorem cntL_float_le (i : Int) (t : Node) : cntL i t.floating_nodes ≤ cnt i t := by
  have := cnt_parts_sum i t
  omega

theorem cnt_head (i : Int) (t : Node) (h : t.id = i) :
    cnt i t = 1 + cntL i t.nodes + cntL i t.floating_nodes := by
  rw [cnt_eq]
  simp [h]

theorem cnt_self (i : Int) (t : Node) (h : t.id = i) : 1 ≤ cnt i t := by
  rw [cnt_head i t h]
  omega

theorem cnt_le_of_mem_list_cnt {c : Node} {l : List Node} (h : c ∈ l) (i : Int) :
    cnt i c ≤ cntL i l := by
  induction l with
  | nil => cases h
  | cons n rest ih =>
    rw [cntL_cons]
    rcases List.mem_cons.mp h with rfl | h2
    · omega
    · have := ih h2
      omega

theorem two_mem_cnt_le {c d : Node} {l : List Node} (hc : c ∈ l) (hd : d ∈ l) (hne : c ≠ d)
    (i : Int) : cnt i c + cnt i d ≤ cntL i l := by
  induction l with
  | nil => cases hc
  | cons h rest ih =>
    rw [cntL_cons]
    by_cases hhc : h = c
    · subst hhc
      have hd2 : d ∈ rest := by
        rcases List.mem_cons.mp hd with rfl | h2
        · exact absurd rfl hne
        · exact h2
      have := cnt_le_of_mem_list_cnt hd2 i
      omega
    · by_cases hhd : h = d
      · subst hhd
        have hc2 : c ∈ rest := by
          rcases List.mem_cons.mp hc with rfl | h2
          · exact absurd rfl (fun hx => hne hx.symm)
          · exact h2
        have := cnt_le_of_mem_list_cnt hc2 i
        omega
      · have hc2 : c ∈ rest := by
          rcases List.mem_cons.mp hc with rfl | h2
          · exact absurd rfl hhc
          · exact h2
        have hd2 : d ∈ rest := by
          rcases List.mem_cons.mp hd with rfl | h2
          · exact absurd rfl hhd
          · exact h2
        have := ih hc2 hd2
        omega

theorem cnt_le_of_mem_allNodes (i : Int) (t : Node) :
    ∀ {x : Node}, x ∈ t.allNodes → cnt i x ≤ cnt i t := by
  induction t using Node.inductionOn with
  | step t ihN ihF =>
    intro x hx
    rw [allNodes_eq] at hx
    rcases List.mem_cons.mp hx with rfl | hx2
    · exact le_rfl
    · rcases List.mem_append.mp hx2 with hN | hF
      · obtain ⟨c, hcl, hxc⟩ := exists_of_mem_allNodesList hN
        have h1 := ihN c hcl hxc
        have h2 := cnt_le_of_mem_list_cnt hcl i
        have h3 := cntL_nodes_le i t
        omega
      · obtain ⟨c, hcl, hxc⟩ := exists_of_mem_allNodesList hF
        have h1 := ihF c hcl hxc
        have h2 := cnt_le_of_mem_list_cnt hcl i
        have h3 := cntL_float_le i t
        omega

theorem cnt_le_of_mem_allNodesList {x : Node} {l : List Node} (h : x ∈ allNodesList l)
    (i : Int) : cnt i x ≤ cntL i l := by
  obtain ⟨c, hc, hx⟩ := exists_of_mem_allNodesList h
  exact le_trans (cnt_le_of_mem_allNodes i c hx) (cnt_le_of_mem_list_cnt hc i)

theorem cnt_pos_of_child (i : Int) {y e : Node} (he : e ∈ y.nodes) (hei : e.id = i) :
    1 ≤ cnt i y :=
  le_trans (cnt_self i e hei) (le_trans (cnt_le_of_mem_list_cnt he i) (cntL_nodes_le i y))

theorem cnt_two_head_and_desc (i : Int) {y p f : Node} (hp : p ∈ y.allNodes) (hf : f ∈ p.nodes)
    (hfi : f.id = i) (hyi : y.id = i) : 2 ≤ cnt i y := by
  have h1 : 1 ≤ cnt i p := cnt_pos_of_child i hf hfi
  rw [allNodes_eq] at hp
  rcases List.mem_cons.mp hp with heq | hp2
  · subst heq
    have h2 : 1 ≤ cntL i p.nodes := le_trans (cnt_self i f hfi) (cnt_le_of_mem_list_cnt hf i)
    rw [cnt_head i p hyi]
    omega
  · rw [cnt_head i y hyi]
    rcases List.mem_append.mp hp2 with hN | hF
    · have := cnt_le_of_mem_allNodesList hN i
      omega
    · have := cnt_le_of_mem_allNodesList hF i
      omega

theorem cnt_two_of_two_parents (i : Int) :
    ∀ (t : Node), ∀ {m p d f : Node},
      m ∈ t.allNodes → p ∈ t.allNodes → d ∈ m.nodes → f ∈ p.nodes →
      d.id = i → f.id = i → m ≠ p → 2 ≤ cnt i t := by
  intro t
  induction t using Node.inductionOn with
  | step t ihN ihF =>
    intro m p d f hm hp hd hf hdi hfi hne
    rw [allNodes_eq] at hm hp
    have hpartsN := cntL_nodes_le i t
    have hpartsF := cntL_float_le i t
    have hparts := cnt_parts_sum i t
    rcases List.mem_cons.mp hm with hmt | hm2
    · subst hmt
      rcases List.mem_cons.mp hp with hpt | hp2
      · subst hpt
        exact absurd rfl hne
      · rcases List.mem_append.mp hp2 with hpN | hpF
        · obtain ⟨c, hcN, hpc⟩ := exists_of_mem_allNodesList hpN
          by_cases hdc : d = c
          · subst hdc
            have h2 : 2 ≤ cnt i d := by
              have := cnt_two_head_and_desc i hpc hf hfi hdi
              omega
            have h3 := cnt_le_of_mem_list_cnt hd i
            omega
          · have h1 : 1 ≤ cnt i d := cnt_self i d hdi
            have h2 : 1 ≤ cnt i c :=
              le_trans (cnt_pos_of_child i hf hfi) (cnt_le_of_mem_allNodes i c hpc)
            have h3 := two_mem_cnt_le hd hcN hdc i
            omega
        · have h1 : 1 ≤ cntL i m.nodes :=
            le_trans (cnt_self i d hdi) (cnt_le_of_mem_list_cnt hd i)
          have h2 : 1 ≤ cntL i m.floating_nodes :=
            le_trans (cnt_pos_of_child i hf hfi) (cnt_le_of_mem_allNodesList hpF i)
          omega
    · rcases List.mem_cons.mp hp with hpt | hp2
      · subst hpt
        rcases List.mem_append.mp hm2 with hmN | hmF
        · obtain ⟨c, hcN, hmc⟩ := exists_of_mem_allNodesList hmN
          by_cases hfc : f = c
          · subst hfc
            have h2 : 2 ≤ cnt i f := by
              have := cnt_two_head_and_desc i hmc hd hdi hfi
              omega
            have h3 := cnt_le_of_mem_list_cnt hf i
            omega
          · have h1 : 1 ≤ cnt i f := cnt_self i f hfi
            have h2 : 1 ≤ cnt i c :=
              le_trans (cnt_pos_of_child i hd hdi) (cnt_le_of_mem_allNodes i c hmc)
            have h3 := two_mem_cnt_le hf hcN hfc i
            omega
        · have h1 : 1 ≤ cntL i p.nodes :=
            le_trans (cnt_self i f hfi) (cnt_le_of_mem_list_cnt hf i)
          have h2 : 1 ≤ cntL i p.floating_nodes :=
            le_trans (cnt_pos_of_child i hd hdi) (cnt_le_of_mem_allNodesList hmF i)
          omega
      · rcases List.mem_append.mp hm2 with hmN | hmF <;>
          rcases List.mem_append.mp hp2 with hpN | hpF
        · obtain ⟨c1, hc1, hmc1⟩ := exists_of_mem_allNodesList hmN
          obtain ⟨c2, hc2, hpc2⟩ := exists_of_mem_allNodesList hpN
          by_cases hcc : c1 = c2
          · subst hcc
            have h2 := ihN c1 hc1 hmc1 hpc2 hd hf hdi hfi hne
            have h3 := cnt_le_of_mem_list_cnt hc1 i
            omega
          · have h1 : 1 ≤ cnt i c1 :=
              le_trans (cnt_pos_of_child i hd hdi) (cnt_le_of_mem_allNodes i c1 hmc1)
            have h2 : 1 ≤ cnt i c2 :=
              le_trans (cnt_pos_of_child i hf hfi) (cnt_le_of_mem_allNodes i c2 hpc2)
            have h3 := two_mem_cnt_le hc1 hc2 hcc i
            omega
        · have h1 : 1 ≤ cntL i t.nodes :=
            le_trans (cnt_pos_of_child i hd hdi) (cnt_le_of_mem_allNodesList hmN i)
          have h2 : 1 ≤ cntL i t.floating_nodes :=
            le_trans (cnt_pos_of_child i hf hfi) (cnt_le_of_mem_allNodesList hpF i)
          omega
        · have h1 : 1 ≤ cntL i t.floating_nodes :=
            le_trans (cnt_pos_of_child i hd hdi) (cnt_le_of_mem_allNodesList hmF i)
          have h2 : 1 ≤ cntL i t.nodes :=
            le_trans (cnt_pos_of_child i hf hfi) (cnt_le_of_mem_allNodesList hpN i)
          omega
        · obtain ⟨c1, hc1, hmc1⟩ := exists_of_mem_allNodesList hmF
          obtain ⟨c2, hc2, hpc2⟩ := exists_of_mem_allNodesList hpF
          by_cases hcc : c1 = c2
          · subst hcc
            have h2 := ihF c1 hc1 hmc1 hpc2 hd hf hdi hfi hne
            have h3 := cnt_le_of_mem_list_cnt hc1 i
            omega
          · have h1 : 1 ≤ cnt i c1 :=
              le_trans (cnt_pos_of_child i hd hdi) (cnt_le_of_mem_allNodes i c1 hmc1)
            have h2 : 1 ≤ cnt i c2 :=
              le_trans (cnt_pos_of_child i hf hfi) (cnt_le_of_mem_allNodes i c2 hpc2)
            have h3 := two_mem_cnt_le hc1 hc2 hcc i
            omega

theorem FocusChain_append {p t : Node} {l1 l2 : List Node} :
    ∀ {n : Node}, FocusChain n l1 p → FocusChain p l2 t → FocusChain n (l1 ++ l2) t := by
  induction l1 with
  | nil =>
    intro n h1 h2
    have : n = p := h1
    subst this
    simpa using h2
  | cons c rest ih =>
    intro n h1 h2
    obtain ⟨hf, hc, hrest⟩ := h1
    exact ⟨hf, hc, ih hrest h2⟩

theorem FocusChain_target_mem {t : Node} {l : List Node} :
    ∀ {n : Node}, FocusChain n l t → t = n ∨ t ∈ l := by
  induction l with
  | nil =>
    intro n h
    exact Or.inl ((h : n = t).symm)
  | cons c rest ih =>
    intro n h
    obtain ⟨hf, hc, hrest⟩ := h
    rcases ih hrest with h2 | h2
    · exact Or.inr (h2 ▸ List.mem_cons_self _ _)
    · exact Or.inr (List.mem_cons_of_mem _ h2)

theorem FocusChain_mem {t : Node} {l : List Node} :
    ∀ {n : Node}, FocusChain n l t → ∀ {m : Node}, m = n ∨ m ∈ l → m ∈ n.allNodes := by
  induction l with
  | nil =>
    intro n h m hm
    rcases hm with rfl | hm
    · exact self_mem_allNodes m
    · cases hm
  | cons c rest ih =>
    intro n h m hm
    obtain ⟨hf, hc, hrest⟩ := h
    rcases hm with rfl | hm2
    · exact self_mem_allNodes m
    · rcases List.mem_cons.mp hm2 with rfl | hm3
      · exact child_mem_allNodes hc
      · exact mem_allNodes_trans n (ih hrest (Or.inr hm3)) (child_mem_allNodes hc)

theorem find_first_eq {l : List Node} {c : Node} (i : Int) (hc : c ∈ l) (hci : c.id = i)
    (huniq : ∀ e ∈ l, e.id = i → e = c) :
    l.find? (fun e => e.id == i) = some c := by
  induction l with
  | nil => cases hc
  | cons h rest ih =>
    by_cases hh : h.id = i
    · rw [List.find?_cons_of_pos _ (by simpa using hh)]
      rw [huniq h (List.mem_cons_self _ _) hh]
    · rw [List.find?_cons_of_neg _ (by simpa using hh)]
      have hc2 : c ∈ rest := by
        rcases List.mem_cons.mp hc with rfl | h2
        · exact absurd hci hh
        · exact h2
      exact ih hc2 (fun e he hei => huniq e (List.mem_cons_of_mem _ he) hei)

theorem find_none_of {l : List Node} (i : Int) (h : ∀ e ∈ l, e.id ≠ i) :
    l.find? (fun e => e.id == i) = none := by
  rw [List.find?_eq_none]
  intro x hx
  simpa using h x hx

theorem descent_finds (tree : Node) (pred : Node → Bool) (hnd : tree.ids.Nodup) :
    ∀ (l : List Node) (n t : Node),
      FocusChain n l t → n ∈ tree.allNodes → pred t = true →
      (∀ m, m = n ∨ m ∈ l → pred m = true → m = t) →
      node_find_focused_as_ref pred n = some t := by
  have hcnt : ∀ i, cnt i tree ≤ 1 := fun i => List.nodup_iff_count_le_one.mp hnd i
  intro l
  induction l with
  | nil =>
    intro n t hch hmem hpt huniq
    have hnt : n = t := hch
    subst hnt
    rw [node_find_char]
    simp [hpt]
  | cons c rest ih =>
    intro n t hch hmem hpt huniq
    obtain ⟨hfoc, hchild, hrest⟩ := hch
    by_cases hpn : pred n = true
    · have hnt : n = t := huniq n (Or.inl rfl) hpn
      subst hnt
      rw [node_find_char]
      simp [hpn]
    · rw [node_find_char]
      replace hpn : pred n = false := by
        revert hpn
        cases pred n <;> simp
      simp only [hpn, Bool.false_eq_true, if_false, hfoc]
      have hcmem : c ∈ tree.allNodes :=
        mem_allNodes_trans tree (child_mem_allNodes hchild) hmem
      have huniq2 : ∀ m, m = c ∨ m ∈ rest → pred m = true → m = t := fun m hm hpm =>
        huniq m (Or.inr (by rcases hm with rfl | hm2
                            · exact List.mem_cons_self _ _
                            · exact List.mem_cons_of_mem _ hm2)) hpm
      have hrec := ih c t hrest hcmem hpt huniq2
      rcases hchild with hcN | hcF
      · have hfind : n.nodes.find? (fun e => e.id == c.id) = some c := by
          apply find_first_eq c.id hcN rfl
          intro e he hei
          by_contra hne
          have h1 : 1 ≤ cnt c.id e := cnt_self _ _ hei
          have h2 : 1 ≤ cnt c.id c := cnt_self _ _ rfl
          have h3 := two_mem_cnt_le he hcN hne c.id
          have h4 := cntL_nodes_le c.id n
          have h5 := cnt_le_of_mem_allNodes c.id tree hmem
          have h6 := hcnt c.id
          omega
        rw [hfind]
        exact hrec
      · have hnone : n.nodes.find? (fun e => e.id == c.id) = none := by
          apply find_none_of
          intro e he hei
          have h1 : 1 ≤ cntL c.id n.nodes :=
            le_trans (cnt_self _ _ hei) (cnt_le_of_mem_list_cnt he _)
          have h2 : 1 ≤ cntL c.id n.floating_nodes :=
            le_trans (cnt_self _ _ rfl) (cnt_le_of_mem_list_cnt hcF _)
          have h3 := cnt_parts_sum c.id n
          have h5 := cnt_le_of_mem_allNodes c.id tree hmem
          have h6 := hcnt c.id
          omega
        have hfind : n.floating_nodes.find? (fun e => e.id == c.id) = some c := by
          apply find_first_eq c.id hcF rfl
          intro e he hei
          by_contra hne
          have h1 : 1 ≤ cnt c.id e := cnt_self _ _ hei
          have h2 : 1 ≤ cnt c.id c := cnt_self _ _ rfl
          have h3 := two_mem_cnt_le he hcF hne c.id
          have h4 := cntL_float_le c.id n
          have h5 := cnt_le_of_mem_allNodes c.id tree hmem
          have h6 := hcnt c.id
          omega
        rw [hnone, hfind]
        exact hrec

theorem node_find_eq_none {pred : Node → Bool} :
    ∀ (t : Node), (∀ m ∈ t.allNodes, pred m = false) →
      node_find_focused_as_ref pred t = none := by
  intro t
  induction t using Node.inductionOn with
  | step t ihN ihF =>
    intro hall
    rw [node_find_char]
    have hpt : pred t = false := hall t (self_mem_allNodes t)
    simp only [hpt, Bool.false_eq_true, if_false]
    cases hh : t.focus.head? with
    | none => simp
    | some i =>
      have hsub : ∀ (c : Node), c ∈ t.nodes ∨ c ∈ t.floating_nodes →
          ∀ m ∈ c.allNodes, pred m = false := fun c hc m hm =>
        hall m (mem_allNodes_trans t hm (child_mem_allNodes hc))
      show (match t.nodes.find? (fun c => c.id == i) with
            | some c => node_find_focused_as_ref pred c
            | none =>
              match t.floating_nodes.find? (fun c => c.id == i) with
              | some c => node_find_focused_as_ref pred c
              | none => none) = none
      cases hfind : t.nodes.find? (fun c => c.id == i) with
      | some c =>
        have hcmem : c ∈ t.nodes := List.mem_of_find?_eq_some hfind
        exact ihN c hcmem (hsub c (Or.inl hcmem))
      | none =>
        cases hfind2 : t.floating_nodes.find? (fun c => c.id == i) with
        | some c =>
          have hcmem : c ∈ t.floating_nodes := List.mem_of_find?_eq_some hfind2
          exact ihF c hcmem (hsub c (Or.inr hcmem))
        | none => rfl

/-- Claim C5, amended: on a snapshot with distinct node ids whose focus lists
trace a chain from the root to the unique focused node, and whose focused node
is a tiling child of its chain parent, the resolver returns the focused node
and that parent; on a snapshot where no node is focused, resolution fails with
the Could not find the focused node error and no command is issued.  (When the
focused node is only a floating child, parent resolution fails instead, see
the counterexample.) -/
theorem C5_resolver_correct :
    (∀ (tree p f : Node) (l : List Node),
        tree.ids.Nodup →
        FocusChain tree l p →
        p.focus.head? = some f.id →
        f ∈ p.nodes →
        f.focused = true →
        (∀ m ∈ tree.allNodes, m.focused = true → m = f) →
        node_find_focused_as_ref (fun n => n.focused) tree = some f ∧
          get_parent tree f = some p) ∧
    (∀ (conn : Conn) (ratio : Rat) (tree : Node),
        conn.treeResult = some tree →
        (∀ m ∈ tree.allNodes, m.focused = false) →
        node_find_focused_as_ref (fun n => n.focused) tree = none ∧
          switch_splitting conn ratio = (.error "Could not find the focused node", [])) := by
  constructor
  · intro tree p f l hnd hch hfoc hfp hff huniq
    have hchain2 : FocusChain tree (l ++ [f]) f :=
      FocusChain_append hch ⟨hfoc, Or.inl hfp, rfl⟩
    constructor
    · apply descent_finds tree _ hnd (l ++ [f]) tree f hchain2 (self_mem_allNodes tree) hff
      intro m hm hpm
      exact huniq m (FocusChain_mem hchain2 hm) hpm
    · unfold get_parent
      apply descent_finds tree _ hnd l tree p hch (self_mem_allNodes tree)
      · exact List.any_eq_true.mpr ⟨f, hfp, by simp⟩
      · intro m hm hpm
        obtain ⟨d, hdm, hdid⟩ := List.any_eq_true.mp hpm
        by_contra hne
        have hmm : m ∈ tree.allNodes := FocusChain_mem hch hm
        have hpm2 : p ∈ tree.allNodes := FocusChain_mem hch (FocusChain_target_mem hch)
        have h2 := cnt_two_of_two_parents f.id tree hmm hpm2 hdm hfp
          (by simpa using hdid) rfl hne
        have h1 : cnt f.id tree ≤ 1 := List.nodup_iff_count_le_one.mp hnd f.id
        omega
  · intro conn r tree htree hall
    have hnone : node_find_focused_as_ref (fun n => n.focused) tree = none :=
      node_find_eq_none tree (fun m hm => hall m hm)
    exact ⟨hnone, by simp [switch_splitting, htree, hnone]⟩

/-- Claim C5, witness: a two node snapshot (root with one focused tiling
child) resolves to the child and its parent the root. -/
theorem C5_witness :
    node_find_focused_as_ref (fun n => n.focused) tC5w = some wC5w ∧
      get_parent tC5w wC5w = some tC5w :=
  C5_resolver_correct.1 tC5w tC5w wC5w [] (by decide) rfl rfl
    (List.mem_singleton.mpr rfl) rfl
    (by
      intro m hm hf
      rw [show tC5w.allNodes = [tC5w, wC5w] from rfl] at hm
      rcases List.mem_cons.mp hm with rfl | hm2
      · exact absurd hf (by decide)
      · rcases List.mem_cons.mp hm2 with rfl | hm3
        · rfl
        · cases hm3)

/-- Claim C5, counterexample: a snapshot with exactly one focused node, which
is a floating child of the root.  The root is its structural parent, yet
get_parent (whose predicate only scans tiling children) fails, and the whole
cycle returns the No parent error, refuting the claim for trees whose focused
node is a floating child. -/
theorem C5_cex :
    (tC5.allNodes.filter (fun n => n.focused)).map Node.id = [54] ∧
    wC5 ∈ tC5.floating_nodes ∧
    get_parent tC5 wC5 = none ∧
    switch_splitting ⟨some tC5, true⟩ (2/5) = (.error "No parent", []) :=
  ⟨rfl, List.mem_singleton.mpr rfl, rfl, rfl⟩
